import Mathlib

/-!
Shallow embedding of the LLM content-analysis pipeline of `src/LLM_run.rs`
(struct `LLMRunner` and its methods), over `List Char` as the model of Rust
`str`/`String`.  Byte-level operations (`len`, slicing `&s[..n]`) are modelled
through the UTF-8 byte size of each character; a Rust panic is modelled as
`Option.none`.
-/

set_option maxRecDepth 100000

namespace WebLLM

/-- Model of a Rust string: its sequence of Unicode scalar values. -/
abbrev Str := List Char

/-- Convert a Lean string literal into the model type. -/
def str (s : String) : Str := s.data

/-- Model of Rust `char::is_whitespace` (Unicode `White_Space`). -/
def wsChar (c : Char) : Bool :=
  c = ' ' || c = '\t' || c = '\n' || c = '\r' ||
  c.toNat = 0xb || c.toNat = 0xc || c.toNat = 0x85 || c.toNat = 0xa0 ||
  c.toNat = 0x1680 || (0x2000 ≤ c.toNat && c.toNat ≤ 0x200a) ||
  c.toNat = 0x2028 || c.toNat = 0x2029 || c.toNat = 0x202f ||
  c.toNat = 0x205f || c.toNat = 0x3000

/-- Model of Rust `str::trim_start`. -/
def trimStart (s : Str) : Str := s.dropWhile wsChar

/-- Model of Rust `str::trim_end`. -/
def trimEnd (s : Str) : Str := (s.reverse.dropWhile wsChar).reverse

/-- Model of Rust `str::trim`. -/
def trim (s : Str) : Str := trimEnd (trimStart s)

/-- Split on `'\n'`; always returns at least one (possibly empty) segment. -/
def splitNl : Str → List Str
  | [] => [[]]
  | c :: rest =>
    if c = '\n' then [] :: splitNl rest
    else
      match splitNl rest with
      | [] => [[c]]
      | l :: ls => (c :: l) :: ls

/-- Drop a final empty segment (Rust `str::lines` yields no line after a
terminating newline, and yields nothing for the empty string). -/
def dropLastEmpty (ls : List Str) : List Str :=
  if ls.getLast? = some [] then ls.dropLast else ls

/-- Strip one trailing `'\r'` from a line, as Rust `str::lines` does. -/
def stripCR (l : Str) : Str :=
  if l.getLast? = some '\r' then l.dropLast else l

/-- Model of Rust `str::lines`. -/
def rustLines (s : Str) : List Str :=
  (dropLastEmpty (splitNl s)).map stripCR

/-- Model of Rust `str::contains` for a string pattern: some suffix of `s`
has `pat` as a prefix. -/
def occursIn (pat : Str) : Str → Bool
  | [] => pat.isPrefixOf ([] : Str)
  | c :: rest => pat.isPrefixOf (c :: rest) || occursIn pat rest

/-- Model of Rust `str::replace(pat, "")`: remove every (non-overlapping,
leftmost-first) occurrence of `pat`.  The Rust callers only use non-empty
literal patterns; for `pat = []` we return `s` unchanged. -/
def removeAll (pat : Str) (s : Str) : Str :=
  if _h : pat = [] then s
  else
    match s with
    | [] => []
    | c :: rest =>
      if pat.isPrefixOf (c :: rest) then
        removeAll pat ((c :: rest).drop pat.length)
      else
        c :: removeAll pat rest
termination_by s.length
decreasing_by
  · simp only [List.length_drop]
    have : 0 < pat.length := List.length_pos.mpr _h
    simp only [List.length_cons]
    omega
  · simp only [List.length_cons]
    omega

/-! ## The result structures of `LLM_run.rs` -/

/-- `struct ContentAnalysis` of `LLM_run.rs`. -/
structure ContentAnalysis where
  summary : Str
  sentiment : Str
  key_topics : Str
  category : Str
deriving DecidableEq

/-- `struct SentimentResult` of `LLM_run.rs` (confidence is `f64`, modelled
as an exact rational). -/
structure SentimentResult where
  label : Str
  confidence : ℚ
  explanation : Str
deriving DecidableEq

/-! ## Line-prefix parsing of `analyze_web_content` (lines 146-184) -/

def summaryTag : Str := str "SUMMARY:"
def sentimentTag : Str := str "SENTIMENT:"
def topicsTag : Str := str "TOPICS:"
def categoryTag : Str := str "CATEGORY:"

/-- The four mutable locals `summary`, `sentiment`, `topics`, `category`
of `analyze_web_content` during the scan loop. -/
structure ScanState where
  summary : Str
  sentiment : Str
  topics : Str
  category : Str
deriving DecidableEq

/-- One iteration of the `for line in response.lines()` loop of
`analyze_web_content`: trim the line, test the four prefixes in order,
and on a match overwrite the field with
`line.replace(tag, "").trim().to_string()`. -/
def scanStep (st : ScanState) (l : Str) : ScanState :=
  let line := trim l
  if summaryTag.isPrefixOf line then
    { st with summary := trim (removeAll summaryTag line) }
  else if sentimentTag.isPrefixOf line then
    { st with sentiment := trim (removeAll sentimentTag line) }
  else if topicsTag.isPrefixOf line then
    { st with topics := trim (removeAll topicsTag line) }
  else if categoryTag.isPrefixOf line then
    { st with category := trim (removeAll categoryTag line) }
  else st

/-- The scan loop of `analyze_web_content` over all lines of the response,
starting from four empty strings. -/
def analyzeScan (response : Str) : ScanState :=
  (rustLines response).foldl scanStep ⟨[], [], [], []⟩

/-- The parsing part of `analyze_web_content` (lines 146-184): scan the
response line by line, then apply the per-field fallbacks
(`summary` falls back to the whole raw response, the other three to
fixed defaults) and assemble the `ContentAnalysis`. -/
def analyze_web_content_parse (response : Str) : ContentAnalysis :=
  let st := analyzeScan response
  { summary := if st.summary = [] then response else st.summary
    sentiment := if st.sentiment = [] then str "NEUTRAL" else st.sentiment
    key_topics := if st.topics = [] then str "General" else st.topics
    category := if st.category = [] then str "General" else st.category }

/-! ## Topic extraction of `extract_topics` (lines 245-254) -/

/-- The parsing part of `extract_topics`: split the response into lines,
drop lines blank after trimming, trim each kept line, keep the first
`max_topics` entries. -/
def extract_topics_parse (response : Str) (max_topics : Nat) : List Str :=
  ((((rustLines response).filter (fun l => !(trim l).isEmpty)).map trim).take max_topics)

/-! ## Byte-level truncation `&content[..limit]` (lines 124-128, 230, 242, 267, 285)

Rust `str::len` counts UTF-8 bytes and `&s[..n]` slices by byte index,
panicking when `n` is not a character boundary.  A panic is `none`. -/

/-- UTF-8 byte length of a string, Rust `str::len`. -/
def byteLen (s : Str) : Nat := (s.map Char.utf8Size).sum

/-- Model of `&s[..n]`: the prefix of `s` of UTF-8 byte length exactly `n`,
or `none` when `n` is beyond the end of `s` or falls inside a character
(the case where Rust panics). -/
def slicePre : Str → Nat → Option Str
  | _, 0 => some []
  | [], _ + 1 => none
  | c :: rest, n + 1 =>
    if c.utf8Size ≤ n + 1 then (slicePre rest (n + 1 - c.utf8Size)).map (c :: ·)
    else none

/-- The truncation pattern
`if content.len() > limit { &content[..limit] } else { content }`. -/
def truncateBytes (content : Str) (limit : Nat) : Option Str :=
  if byteLen content > limit then slicePre content limit else some content

/-- `n` is a UTF-8 character boundary of `s`: the byte length of some
prefix (by characters) of `s` equals `n`. -/
def IsUtf8Boundary (s : Str) (n : Nat) : Prop :=
  ∃ k, byteLen (s.take k) = n

/-! ## The prompt builders (the `format!` calls of each operation) -/

/-- Prompt of `analyze_web_content` (lines 130-142), truncating the content
to 3000 bytes. -/
def analyze_web_content_prompt (title content url : Str) : Option Str :=
  (truncateBytes content 3000).map (fun tc =>
    str "Analyze this web content and provide structured analysis:\n\nURL: " ++
    url ++ str "\nTitle: " ++ title ++ str "\nContent: " ++ tc ++
    str "\n\nPlease provide analysis in this exact format:\nSUMMARY: [2-3 sentence summary]\nSENTIMENT: [POSITIVE/NEGATIVE/NEUTRAL with brief explanation]\nTOPICS: [comma-separated key topics/themes]\nCATEGORY: [main category like Technology, News, Business, Education, etc.]\n\nBe concise and accurate.")

/-- Prompt of `summarize_content` (lines 226-231), truncating to 4000 bytes. -/
def summarize_content_prompt (content : Str) (max_sentences : Nat) : Option Str :=
  (truncateBytes content 4000).map (fun tc =>
    str "Summarize the following content in exactly " ++ str (toString max_sentences) ++
    str " sentences. Focus on the most important information:\n\n" ++ tc)

/-- Prompt of `extract_topics` (lines 238-243), truncating to 4000 bytes. -/
def extract_topics_prompt (content : Str) (max_topics : Nat) : Option Str :=
  (truncateBytes content 4000).map (fun tc =>
    str "Extract the top " ++ str (toString max_topics) ++
    str " key topics or themes from this content. Return only the topics, one per line:\n\n" ++ tc)

/-- Prompt of `classify_content` (lines 259-268), truncating to 2000 bytes. -/
def classify_content_prompt (title content : Str) : Option Str :=
  (truncateBytes content 2000).map (fun tc =>
    str "Classify this web content into one main category. Choose from: Technology, News, Business, Education, Entertainment, Sports, Health, Science, Politics, Lifestyle, Other\n\nTitle: " ++
    title ++ str "\nContent: " ++ tc ++ str "\n\nReturn only the category name:")

/-- Prompt of `check_relevance` (lines 275-286), truncating to 3000 bytes. -/
def check_relevance_prompt (content : Str) (keywords : List Str) : Option Str :=
  (truncateBytes content 3000).map (fun tc =>
    str "Rate how relevant this content is to these keywords: " ++
    List.intercalate (str ", ") keywords ++ str "\nContent: " ++ tc ++
    str "\n\nProvide a relevance score from 0-100 where:\n0 = Not relevant at all\n50 = Somewhat relevant\n100 = Highly relevant\n\nReturn only the number:")

/-! ## `f64` parsing and clamping of `check_relevance` (lines 288-290)

`f64` is modelled as an exact rational extended with the infinities and NaN;
`str::parse::<f64>` is modelled by the grammar of `f64::from_str`
(optional sign, then `inf`/`infinity`/`nan` case-insensitively or a decimal
number with optional fraction and exponent), with decimal values exact. -/

inductive F64 where
  | finite (q : ℚ)
  | inf
  | neginf
  | nan
deriving DecidableEq

/-- Rust `f64::min`: NaN is ignored unless both are NaN. -/
def fmin (a b : F64) : F64 :=
  match a, b with
  | .nan, x => x
  | x, .nan => x
  | .neginf, _ => .neginf
  | _, .neginf => .neginf
  | .inf, x => x
  | x, .inf => x
  | .finite p, .finite q => .finite (min p q)

/-- Rust `f64::max`: NaN is ignored unless both are NaN. -/
def fmax (a b : F64) : F64 :=
  match a, b with
  | .nan, x => x
  | x, .nan => x
  | .inf, _ => .inf
  | _, .inf => .inf
  | .neginf, x => x
  | x, .neginf => x
  | .finite p, .finite q => .finite (max p q)

/-- Decimal digit value of a character, if any. -/
def digitVal (c : Char) : Option Nat :=
  if '0' ≤ c ∧ c ≤ '9' then some (c.toNat - 48) else none

/-- Split a string into its leading run of decimal digits and the rest. -/
def readDigits : Str → (List Nat × Str)
  | [] => ([], [])
  | c :: rest =>
    match digitVal c with
    | some d => let (ds, r) := readDigits rest; (d :: ds, r)
    | none => ([], c :: rest)

/-- The natural number denoted by a digit list (most significant first). -/
def natOfDigits (ds : List Nat) : Nat := ds.foldl (fun a d => a * 10 + d) 0

/-- Exponent suffix of a float literal: optional sign then digits,
consuming the whole rest of the string. -/
def parseExpSigned (s : Str) : Option Int :=
  let digitsOnly : Str → Option Int := fun r =>
    let (ds, rest) := readDigits r
    if ds = [] ∨ rest ≠ [] then none else some (natOfDigits ds : Int)
  match s with
  | '+' :: r => digitsOnly r
  | '-' :: r => (digitsOnly r).map (- ·)
  | r => digitsOnly r

/-- Magnitude part of the `f64::from_str` grammar: digits with an optional
`.` and fractional digits (at least one digit in total), then an optional
`e`/`E` exponent; the whole string must be consumed. -/
def parseNumMag (s : Str) : Option ℚ :=
  let cont : List Nat → List Nat → Str → Option ℚ := fun ids fds rest =>
    if ids = [] ∧ fds = [] then none
    else
      let q0 : ℚ := (natOfDigits ids : ℚ) + (natOfDigits fds : ℚ) / (10 : ℚ) ^ fds.length
      match rest with
      | [] => some q0
      | c :: r2 =>
        if c = 'e' ∨ c = 'E' then (parseExpSigned r2).map (fun e => q0 * (10 : ℚ) ^ e)
        else none
  let (ids, r1) := readDigits s
  match r1 with
  | '.' :: r2 => let (fds, r3) := readDigits r2; cont ids fds r3
  | r => cont ids [] r

/-- ASCII lowercasing, the model of `str::to_lowercase` (the Rust function
also maps non-ASCII letters; only ASCII matters for the patterns used). -/
def lowerStr (s : Str) : Str := s.map Char.toLower

/-- Model of `str::parse::<f64>`. -/
def parseF64 (s : Str) : Option F64 :=
  let core : Str → Bool → Option F64 := fun r neg =>
    let lw := lowerStr r
    if lw = str "inf" ∨ lw = str "infinity" then
      some (if neg then F64.neginf else F64.inf)
    else if lw = str "nan" then some F64.nan
    else (parseNumMag r).map (fun q => F64.finite (if neg then -q else q))
  match s with
  | '+' :: r => core r false
  | '-' :: r => core r true
  | r => core r false

/-- The parsing and clamping part of `check_relevance` (lines 288-290):
`response.trim().parse::<f64>().unwrap_or(0.0)`, then
`score.min(100.0).max(0.0)`. -/
def check_relevance_parse (response : Str) : F64 :=
  let score := (parseF64 (trim response)).getD (F64.finite 0)
  fmax (fmin score (F64.finite 100)) (F64.finite 0)

/-! ## JSON text parsing, the model of `serde_json::from_str`

Numbers are modelled as exact rationals (the crate rounds to the nearest
`f64` when a field has type `f64`; the values appearing in the claims are
unaffected).  Strings handle the standard escapes, including surrogate
pairs; lone surrogates and unescaped control characters are refused, as
the crate refuses them. -/

/-- The character `"\x7b"`. -/
def lbrace : Char := Char.ofNat 123

/-- The character `"\x7d"`. -/
def rbrace : Char := Char.ofNat 125

inductive Json where
  | null
  | bool (b : Bool)
  | num (q : ℚ)
  | jstr (s : Str)
  | arr (xs : List Json)
  | obj (fields : List (Str × Json))

/-- JSON insignificant whitespace. -/
def jsonWs (c : Char) : Bool := c = ' ' || c = '\t' || c = '\n' || c = '\r'

def skipWs (s : Str) : Str := s.dropWhile jsonWs

/-- Hexadecimal digit value. -/
def hexVal (c : Char) : Option Nat :=
  if '0' ≤ c ∧ c ≤ '9' then some (c.toNat - 48)
  else if 'a' ≤ c ∧ c ≤ 'f' then some (c.toNat - 87)
  else if 'A' ≤ c ∧ c ≤ 'F' then some (c.toNat - 55)
  else none

/-- Value of four hex digits. -/
def hex4 (a b c d : Char) : Option Nat := do
  let va ← hexVal a; let vb ← hexVal b; let vc ← hexVal c; let vd ← hexVal d
  pure (((va * 16 + vb) * 16 + vc) * 16 + vd)

/-- Body of a JSON string after the opening quote: returns the decoded
content and the remainder after the closing quote. -/
def parseJStringAux : Nat → Str → Option (Str × Str)
  | 0, _ => none
  | _ + 1, [] => none
  | fuel + 1, c :: rest =>
    if c = '"' then some ([], rest)
    else if c = '\\' then
      match rest with
      | 'u' :: h1 :: h2 :: h3 :: h4 :: r3 =>
        match hex4 h1 h2 h3 h4 with
        | none => none
        | some n =>
          if 0xd800 ≤ n ∧ n ≤ 0xdbff then
            match r3 with
            | '\\' :: 'u' :: k1 :: k2 :: k3 :: k4 :: r4 =>
              match hex4 k1 k2 k3 k4 with
              | none => none
              | some m =>
                if 0xdc00 ≤ m ∧ m ≤ 0xdfff then
                  let code := 0x10000 + (n - 0xd800) * 0x400 + (m - 0xdc00)
                  (parseJStringAux fuel r4).map (fun (t, r) => (Char.ofNat code :: t, r))
                else none
            | _ => none
          else if 0xdc00 ≤ n ∧ n ≤ 0xdfff then none
          else (parseJStringAux fuel r3).map (fun (t, r) => (Char.ofNat n :: t, r))
      | e :: r2 =>
        let esc : Option Char :=
          if e = '"' then some '"'
          else if e = '\\' then some '\\'
          else if e = '/' then some '/'
          else if e = 'b' then some (Char.ofNat 8)
          else if e = 'f' then some (Char.ofNat 12)
          else if e = 'n' then some '\n'
          else if e = 'r' then some '\r'
          else if e = 't' then some '\t'
          else none
        match esc with
        | none => none
        | some ch => (parseJStringAux fuel r2).map (fun (t, r) => (ch :: t, r))
      | [] => none
    else if c.toNat < 0x20 then none
    else (parseJStringAux fuel rest).map (fun (t, r) => (c :: t, r))

/-- Exponent suffix of a JSON number: optional sign then at least one
digit; returns its value and the remainder. -/
def parseJExp (s : Str) : Option (Int × Str) :=
  let digitsOnly : Str → Option (Int × Str) := fun r =>
    let (ds, rest) := readDigits r
    if ds = [] then none else some ((natOfDigits ds : Int), rest)
  match s with
  | '+' :: r => digitsOnly r
  | '-' :: r => (digitsOnly r).map (fun (e, rest) => (-e, rest))
  | r => digitsOnly r

/-- Optional fraction and exponent of a JSON number, applied to the
integer part `intv`. -/
def parseJNumTail (intv : ℚ) (r1 : Str) : Option (ℚ × Str) :=
  let expPart : ℚ → Str → Option (ℚ × Str) := fun q r =>
    match r with
    | c :: r2 =>
      if c = 'e' ∨ c = 'E' then
        (parseJExp r2).map (fun (e, rest) => (q * (10 : ℚ) ^ e, rest))
      else some (q, c :: r2)
    | [] => some (q, [])
  match r1 with
  | '.' :: rf =>
    let (fds, r2) := readDigits rf
    if fds = [] then none
    else expPart (intv + (natOfDigits fds : ℚ) / (10 : ℚ) ^ fds.length) r2
  | r => expPart intv r

/-- A JSON number, per RFC 8259: optional minus, integer part without a
leading zero, optional fraction and exponent. -/
def parseJNum (s : Str) : Option (ℚ × Str) :=
  let mag : Str → Option (ℚ × Str) := fun r =>
    let (ids, r1) := readDigits r
    if ids = [] then none
    else if 1 < ids.length ∧ ids.head? = some 0 then none
    else parseJNumTail (natOfDigits ids : ℚ) r1
  match s with
  | '-' :: r => (mag r).map (fun (q, rest) => (-q, rest))
  | r => mag r

mutual

/-- One JSON value, fuel-bounded recursive descent; leading whitespace is
skipped, the remainder after the value is returned. -/
def parseJson : Nat → Str → Option (Json × Str)
  | 0, _ => none
  | fuel + 1, s =>
    match skipWs s with
    | [] => none
    | c :: rest =>
      if c = '"' then (parseJStringAux (fuel + 1) rest).map (fun (t, r) => (Json.jstr t, r))
      else if c = lbrace then
        (parseObjFields fuel (skipWs rest) true).map (fun (fs, r) => (Json.obj fs, r))
      else if c = '[' then
        (parseArrElems fuel (skipWs rest) true).map (fun (vs, r) => (Json.arr vs, r))
      else if c = 't' then
        if (str "rue").isPrefixOf rest then some (Json.bool true, rest.drop 3) else none
      else if c = 'f' then
        if (str "alse").isPrefixOf rest then some (Json.bool false, rest.drop 4) else none
      else if c = 'n' then
        if (str "ull").isPrefixOf rest then some (Json.null, rest.drop 3) else none
      else (parseJNum (c :: rest)).map (fun (q, r) => (Json.num q, r))

/-- Members of a JSON object after the opening brace (whitespace already
skipped); `first` is true before the first member, when a closing brace is
still allowed. -/
def parseObjFields : Nat → Str → Bool → Option (List (Str × Json) × Str)
  | 0, _, _ => none
  | fuel + 1, s, first =>
    match s with
    | [] => none
    | c :: rest =>
      if c = rbrace ∧ first then some ([], rest)
      else if c = '"' then
        match parseJStringAux (fuel + 1) rest with
        | none => none
        | some (key, r1) =>
          match skipWs r1 with
          | ':' :: r2 =>
            match parseJson fuel r2 with
            | none => none
            | some (v, r3) =>
              match skipWs r3 with
              | c2 :: r4 =>
                if c2 = ',' then
                  (parseObjFields fuel (skipWs r4) false).map
                    (fun (fs, r) => ((key, v) :: fs, r))
                else if c2 = rbrace then some ([(key, v)], r4)
                else none
              | [] => none
          | _ => none
      else none

/-- Elements of a JSON array after the opening bracket (whitespace already
skipped); `first` is true before the first element. -/
def parseArrElems : Nat → Str → Bool → Option (List Json × Str)
  | 0, _, _ => none
  | fuel + 1, s, first =>
    match s with
    | [] => none
    | c :: rest =>
      if c = ']' ∧ first then some ([], rest)
      else
        match parseJson fuel (c :: rest) with
        | none => none
        | some (v, r1) =>
          match skipWs r1 with
          | c2 :: r2 =>
            if c2 = ',' then
              (parseArrElems fuel (skipWs r2) false).map (fun (vs, r) => (v :: vs, r))
            else if c2 = ']' then some ([v], r2)
            else none
          | [] => none

end

/-- Model of `serde_json::from_str`'s text layer: one complete JSON value
with only whitespace around it. -/
def parseJsonText (s : Str) : Option Json :=
  match parseJson (s.length + 1) s with
  | some (v, r) => if skipWs r = [] then some v else none
  | none => none

/-! ## Sentiment decoding of `analyze_sentiment` (lines 188-222) -/

/-- Modelled from the spec: the struct `ParsedSentimentLLMResponse` is
deserialized at line 200 of `LLM_run.rs` but its declaration is absent from
`src/`; per the spec it is "a JSON object with keys `label` (string),
`confidence` (float in [0,1]), `explanation` (string)". -/
structure ParsedSentimentLLMResponse where
  label : Str
  confidence : ℚ
  explanation : Str
deriving DecidableEq

/-- Field collection of the derived `Deserialize` for the three-field
struct: unknown keys are skipped, a repeated known key or a value of the
wrong type is an error, and at the end every field must be present. -/
def collectSentimentFields :
    List (Str × Json) → Option Str → Option ℚ → Option Str →
    Option ParsedSentimentLLMResponse
  | [], some l, some c, some e => some ⟨l, c, e⟩
  | [], _, _, _ => none
  | (k, v) :: rest, l, c, e =>
    if k = str "label" then
      match l, v with
      | none, Json.jstr t => collectSentimentFields rest (some t) c e
      | _, _ => none
    else if k = str "confidence" then
      match c, v with
      | none, Json.num q => collectSentimentFields rest l (some q) e
      | _, _ => none
    else if k = str "explanation" then
      match e, v with
      | none, Json.jstr t => collectSentimentFields rest l c (some t)
      | _, _ => none
    else collectSentimentFields rest l c e

/-- `serde_json::from_str::<ParsedSentimentLLMResponse>`: the text must be
a JSON object carrying the three fields. -/
def parseSentimentJson (s : Str) : Option ParsedSentimentLLMResponse :=
  match parseJsonText s with
  | some (Json.obj fs) => collectSentimentFields fs none none none
  | _ => none

/-- The response-handling part of `analyze_sentiment` (lines 199-221): on
a successful decode, rescale confidence by 100; on failure, fall back to a
case-insensitive substring search on the raw completion, confidence 50,
explanation the raw completion. -/
def analyze_sentiment_parse (llm_response_text : Str) : SentimentResult :=
  match parseSentimentJson llm_response_text with
  | some parsed => ⟨parsed.label, parsed.confidence * 100, parsed.explanation⟩
  | none =>
    { label :=
        if occursIn (str "positive") (lowerStr llm_response_text) then str "POSITIVE"
        else if occursIn (str "negative") (lowerStr llm_response_text) then str "NEGATIVE"
        else str "NEUTRAL"
      confidence := 50
      explanation := llm_response_text }

/-! ## Response envelope and `send_prompt` (lines 24-42 and 81-113) -/

/-- `struct ResponsePart` of `LLM_run.rs`. -/
structure ResponsePart where
  text : Str
deriving DecidableEq

/-- `struct ResponseContent` of `LLM_run.rs`. -/
structure ResponseContent where
  parts : List ResponsePart
deriving DecidableEq

/-- `struct Candidate` of `LLM_run.rs`. -/
structure Candidate where
  content : ResponseContent
deriving DecidableEq

/-- `struct GeminiResponse` of `LLM_run.rs`. -/
structure GeminiResponse where
  candidates : List Candidate
deriving DecidableEq

/-- Look up a required field: absent or repeated is a decode error. -/
def findUnique (name : Str) : List (Str × Json) → Option Json
  | [] => none
  | (k, v) :: rest =>
    if k = name then
      if rest.any (fun kv => kv.1 = name) then none else some v
    else findUnique name rest

/-- Decode every element of a JSON array, failing if any fails. -/
def decodeList (f : Json → Option α) : List Json → Option (List α)
  | [] => some []
  | x :: xs => (f x).bind fun a => (decodeList f xs).map (a :: ·)

def decodePart : Json → Option ResponsePart
  | Json.obj fs =>
    (findUnique (str "text") fs).bind fun v =>
      match v with
      | Json.jstr t => some ⟨t⟩
      | _ => none
  | _ => none

def decodeContent : Json → Option ResponseContent
  | Json.obj fs =>
    (findUnique (str "parts") fs).bind fun v =>
      match v with
      | Json.arr xs => (decodeList decodePart xs).map (⟨·⟩)
      | _ => none
  | _ => none

def decodeCandidate : Json → Option Candidate
  | Json.obj fs =>
    (findUnique (str "content") fs).bind fun v =>
      (decodeContent v).map (⟨·⟩)
  | _ => none

/-- `response.json::<GeminiResponse>()` from the response body text. -/
def decodeGemini (s : Str) : Option GeminiResponse :=
  match parseJsonText s with
  | some (Json.obj fs) =>
    (findUnique (str "candidates") fs).bind fun v =>
      match v with
      | Json.arr xs => (decodeList decodeCandidate xs).map (⟨·⟩)
      | _ => none
  | _ => none

/-- The failure modes of `send_prompt`. -/
inductive SendErr where
  /-- `Err(format!("API request failed: \x7b\x7d", error_text))` on a
  non-2xx status, carrying the response body. -/
  | apiFailed (body : Str)
  /-- The `?` on `response.json()` when the 2xx body fails to decode. -/
  | decodeFailure
  /-- `Err("No response from LLM")` when no candidate or no part exists. -/
  | noResponse
deriving DecidableEq

/-- The response handling of `send_prompt` (lines 99-112), as a function
of the HTTP status code and the response body: on a 2xx status decode the
envelope and return the first part of the first candidate; on a non-2xx
status fail with the body; fall through to "No response from LLM" when a
list is empty. -/
def send_prompt_handle (status : Nat) (body : Str) : Except SendErr Str :=
  if 200 ≤ status ∧ status < 300 then
    match decodeGemini body with
    | none => .error .decodeFailure
    | some g =>
      match g.candidates.head? with
      | some cand =>
        match cand.content.parts.head? with
        | some part => .ok part.text
        | none => .error .noResponse
      | none => .error .noResponse
  else .error (.apiFailed body)

/-- The last line of `c` whose trimming starts with `tag` (the scan loop
overwrites a field on every match, so the last match is the one kept). -/
def lastTagLine (tag c : Str) : Option Str :=
  (rustLines c).reverse.find? (fun l => tag.isPrefixOf (trim l))

/-! ## Concrete sample data used by witnesses and counterexamples -/

/-- The well-formed completion of the spec's end-to-end scenario. -/
def sampleAnalysis : Str :=
  str "SUMMARY: A test.\nSENTIMENT: POSITIVE\nTOPICS: a, b\nCATEGORY: Tech"

/-- A sentiment completion with confidence 0.8. -/
def sampleConf08 : Str :=
  str "\x7b\"label\":\"POSITIVE\",\"confidence\":0.8,\"explanation\":\"x\"\x7d"

/-- A sentiment completion with confidence 2.0, outside `[0,1]`. -/
def sampleConf2 : Str :=
  str "\x7b\"label\":\"POSITIVE\",\"confidence\":2.0,\"explanation\":\"x\"\x7d"

/-- 1001 two-byte characters: 2002 UTF-8 bytes but only 1001 characters. -/
def twoByteContent : Str := List.replicate 1001 'é'

/-- U+1D11E, a four-byte character. -/
def fourByteChar : Char := Char.ofNat 0x1d11e

/-- One ASCII byte then 1000 four-byte characters: 4001 UTF-8 bytes, and
none of 2000, 3000, 4000 is a character boundary. -/
def oddContent : Str := 'a' :: List.replicate 1000 fourByteChar

/-- A 2xx response body with one candidate holding one part. -/
def sampleEnvelope : Str :=
  str "\x7b\"candidates\":[\x7b\"content\":\x7b\"parts\":[\x7b\"text\":\"hi\"\x7d]\x7d\x7d]\x7d"

/-- A 2xx response body whose candidate list is empty. -/
def emptyEnvelope : Str := str "\x7b\"candidates\":[]\x7d"

/-! ## Infix infrastructure: every (trimmed) line is an infix of the text -/

theorem occursIn_nil_pat (s : Str) : occursIn [] s = true := by
  cases s <;> simp [occursIn, List.isPrefixOf]

theorem occursIn_of_infix {pat s : Str} (h : pat <:+: s) : occursIn pat s = true := by
  obtain ⟨u, v, rfl⟩ := h
  induction u with
  | nil =>
    cases pat with
    | nil => simpa using occursIn_nil_pat v
    | cons p pt =>
      have : (p :: pt).isPrefixOf ((p :: pt) ++ v) = true :=
        List.isPrefixOf_iff_prefix.mpr (List.prefix_append _ _)
      simp [occursIn, this]
  | cons a u ih =>
    simp only [List.cons_append]
    simp only [occursIn]
    rw [ih]
    simp

theorem trimEnd_leading (s : Str) : trimEnd s <+: s := by
  have h : (s.reverse.dropWhile wsChar) <:+ s.reverse := List.dropWhile_suffix _
  have h2 : ((s.reverse.dropWhile wsChar).reverse).reverse <:+ s.reverse := by
    simpa using h
  exact List.reverse_suffix.mp h2

theorem trim_within (s : Str) : trim s <:+: s :=
  (trimEnd_leading (trimStart s)).isInfix.trans (List.dropWhile_suffix wsChar).isInfix

theorem splitNl_ne_nil (s : Str) : splitNl s ≠ [] := by
  cases s with
  | nil => simp [splitNl]
  | cons c rest =>
    simp only [splitNl]
    split
    · simp
    · split <;> simp

theorem splitNl_head {s l : Str} {ls : List Str} (h : splitNl s = l :: ls) : l <+: s := by
  induction s generalizing l ls with
  | nil =>
    simp only [splitNl, List.cons.injEq] at h
    exact h.1 ▸ List.nil_prefix
  | cons c rest ih =>
    simp only [splitNl] at h
    split at h
    · rename_i hc
      obtain ⟨rfl, -⟩ := List.cons.injEq .. ▸ h
      exact List.nil_prefix
    · split at h
      next heq => exact absurd heq (splitNl_ne_nil rest)
      next l0 ls0 heq =>
        obtain ⟨rfl, -⟩ := List.cons.injEq .. ▸ h
        exact List.cons_prefix_cons.mpr ⟨rfl, ih heq⟩

theorem splitNl_mem_within {s l : Str} (h : l ∈ splitNl s) : l <:+: s := by
  induction s generalizing l with
  | nil =>
    simp only [splitNl, List.mem_singleton] at h
    exact h ▸ List.nil_infix
  | cons c rest ih =>
    simp only [splitNl] at h
    split at h
    · rcases List.mem_cons.mp h with rfl | hm
      · exact List.nil_infix
      · exact List.infix_cons (ih hm)
    · rename_i hc
      rcases heq : splitNl rest with _ | ⟨l0, ls0⟩
      · exact absurd heq (splitNl_ne_nil rest)
      · rw [heq] at h
        rcases List.mem_cons.mp h with rfl | hm
        · exact (List.cons_prefix_cons.mpr ⟨rfl, splitNl_head heq⟩).isInfix
        · exact List.infix_cons (ih (heq ▸ List.mem_cons_of_mem l0 hm))

theorem stripCR_leading (l : Str) : stripCR l <+: l := by
  unfold stripCR
  split
  · exact List.dropLast_prefix l
  · exact List.prefix_refl l

theorem rustLines_mem_within {c l : Str} (h : l ∈ rustLines c) : l <:+: c := by
  unfold rustLines at h
  obtain ⟨l0, hl0, rfl⟩ := List.mem_map.mp h
  have hmem : l0 ∈ splitNl c := by
    unfold dropLastEmpty at hl0
    split at hl0
    · exact (List.dropLast_sublist _).subset hl0
    · exact hl0
  exact (stripCR_leading l0).isInfix.trans (splitNl_mem_within hmem)

/-- A line of `c` whose trimming starts with `tag` forces an occurrence of
`tag` in `c`. -/
theorem occursIn_of_line_tag {c l tag : Str} (hl : l ∈ rustLines c)
    (h : tag.isPrefixOf (trim l) = true) : occursIn tag c = true := by
  have h1 : tag <+: trim l := List.isPrefixOf_iff_prefix.mp h
  exact occursIn_of_infix (h1.isInfix.trans ((trim_within l).trans (rustLines_mem_within hl)))

/-! ## Properties of `removeAll` -/

theorem removeAll_no_occur {pat s : Str} (h : occursIn pat s = false) :
    removeAll pat s = s := by
  induction s with
  | nil => unfold removeAll; split <;> rfl
  | cons c rest ih =>
    simp only [occursIn, Bool.or_eq_false_iff] at h
    unfold removeAll
    split
    · rfl
    · show (if List.isPrefixOf pat (c :: rest) = true
            then removeAll pat (List.drop (List.length pat) (c :: rest))
            else c :: removeAll pat rest) = c :: rest
      rw [if_neg (by simp [h.1]), ih h.2]

theorem removeAll_strip {pat r : Str} (hne : pat ≠ [])
    (h : occursIn pat r = false) : removeAll pat (pat ++ r) = r := by
  obtain ⟨p0, pt, rfl⟩ : ∃ p0 pt, pat = p0 :: pt := by
    cases pat with
    | nil => exact absurd rfl hne
    | cons p0 pt => exact ⟨p0, pt, rfl⟩
  rw [show (p0 :: pt) ++ r = p0 :: (pt ++ r) from rfl]
  unfold removeAll
  rw [dif_neg hne]
  have hpre : (p0 :: pt).isPrefixOf (p0 :: (pt ++ r)) = true := by
    exact List.isPrefixOf_iff_prefix.mpr ⟨r, rfl⟩
  have hdrop : List.drop (p0 :: pt).length (p0 :: (pt ++ r)) = r := by
    rw [show p0 :: (pt ++ r) = (p0 :: pt) ++ r from rfl]
    exact List.drop_left _ _
  show (if (p0 :: pt).isPrefixOf (p0 :: (pt ++ r)) = true
        then removeAll (p0 :: pt) (List.drop (p0 :: pt).length (p0 :: (pt ++ r)))
        else p0 :: removeAll (p0 :: pt) (pt ++ r)) = r
  rw [if_pos hpre, hdrop, removeAll_no_occur h]

/-! ## The scan loop: each field records the last matching line -/

/-- Two of the four tags can never both be prefixes of the same line
(`t1` the shorter, not a prefix of `t2`). -/
theorem tag_excl {t1 t2 l : Str} (hlen : t1.length ≤ t2.length)
    (hnp : ¬ t1 <+: t2) (h1 : t1.isPrefixOf l = true) (h2 : t2.isPrefixOf l = true) :
    False :=
  hnp (List.prefix_of_prefix_length_le (List.isPrefixOf_iff_prefix.mp h1)
    (List.isPrefixOf_iff_prefix.mp h2) hlen)

theorem scanStep_summary (st : ScanState) (l : Str) :
    (scanStep st l).summary =
      if summaryTag.isPrefixOf (trim l) then trim (removeAll summaryTag (trim l))
      else st.summary := by
  simp only [scanStep]
  split_ifs <;> rfl

theorem scanStep_sentiment (st : ScanState) (l : Str) :
    (scanStep st l).sentiment =
      if sentimentTag.isPrefixOf (trim l) then trim (removeAll sentimentTag (trim l))
      else st.sentiment := by
  rcases hB : sentimentTag.isPrefixOf (trim l) with _ | _
  · have hB' : ¬(sentimentTag.isPrefixOf (trim l) = true) := by simp [hB]
    simp only [scanStep, if_neg hB']
    split_ifs <;> first | rfl | exact False.elim (by assumption)
  · have hA : summaryTag.isPrefixOf (trim l) = false := by
      rcases hA : summaryTag.isPrefixOf (trim l) with _ | _
      · rfl
      · exact (tag_excl (by decide) (by decide) hA hB).elim
    have hA' : ¬(summaryTag.isPrefixOf (trim l) = true) := by simp [hA]
    simp only [scanStep, if_neg hA', if_pos hB]
    simp

theorem scanStep_topics (st : ScanState) (l : Str) :
    (scanStep st l).topics =
      if topicsTag.isPrefixOf (trim l) then trim (removeAll topicsTag (trim l))
      else st.topics := by
  rcases hC : topicsTag.isPrefixOf (trim l) with _ | _
  · have hC' : ¬(topicsTag.isPrefixOf (trim l) = true) := by simp [hC]
    simp only [scanStep, if_neg hC']
    split_ifs <;> first | rfl | exact False.elim (by assumption)
  · have hA : summaryTag.isPrefixOf (trim l) = false := by
      rcases hA : summaryTag.isPrefixOf (trim l) with _ | _
      · rfl
      · exact (tag_excl (by decide) (by decide) hC hA).elim
    have hB : sentimentTag.isPrefixOf (trim l) = false := by
      rcases hB : sentimentTag.isPrefixOf (trim l) with _ | _
      · rfl
      · exact (tag_excl (by decide) (by decide) hC hB).elim
    have hA' : ¬(summaryTag.isPrefixOf (trim l) = true) := by simp [hA]
    have hB' : ¬(sentimentTag.isPrefixOf (trim l) = true) := by simp [hB]
    simp only [scanStep, if_neg hA', if_neg hB', if_pos hC]
    simp

theorem scanStep_category (st : ScanState) (l : Str) :
    (scanStep st l).category =
      if categoryTag.isPrefixOf (trim l) then trim (removeAll categoryTag (trim l))
      else st.category := by
  rcases hD : categoryTag.isPrefixOf (trim l) with _ | _
  · have hD' : ¬(categoryTag.isPrefixOf (trim l) = true) := by simp [hD]
    simp only [scanStep, if_neg hD']
    split_ifs <;> first | rfl | exact False.elim (by assumption)
  · have hA : summaryTag.isPrefixOf (trim l) = false := by
      rcases hA : summaryTag.isPrefixOf (trim l) with _ | _
      · rfl
      · exact (tag_excl (by decide) (by decide) hA hD).elim
    have hB : sentimentTag.isPrefixOf (trim l) = false := by
      rcases hB : sentimentTag.isPrefixOf (trim l) with _ | _
      · rfl
      · exact (tag_excl (by decide) (by decide) hD hB).elim
    have hC : topicsTag.isPrefixOf (trim l) = false := by
      rcases hC : topicsTag.isPrefixOf (trim l) with _ | _
      · rfl
      · exact (tag_excl (by decide) (by decide) hC hD).elim
    have hA' : ¬(summaryTag.isPrefixOf (trim l) = true) := by simp [hA]
    have hB' : ¬(sentimentTag.isPrefixOf (trim l) = true) := by simp [hB]
    have hC' : ¬(topicsTag.isPrefixOf (trim l) = true) := by simp [hC]
    simp only [scanStep, if_neg hA', if_neg hB', if_neg hC', if_pos hD]
    simp

/-- A scan field is determined by the last line satisfying its test. -/
theorem foldl_scan_field (f : ScanState → Str) (p : Str → Bool) (v : Str → Str)
    (hstep : ∀ st l, f (scanStep st l) = if p l then v l else f st)
    (ls : List Str) (init : ScanState) :
    f (ls.foldl scanStep init) = ((ls.reverse.find? p).map v).getD (f init) := by
  induction ls generalizing init with
  | nil => rfl
  | cons l ls ih =>
    rw [List.foldl_cons, ih, List.reverse_cons, List.find?_append]
    rcases h : ls.reverse.find? p with _ | x
    · rcases hp : p l with _ | _ <;> simp [hstep, hp, List.find?]
    · simp

theorem analyzeScan_summary (c : Str) :
    (analyzeScan c).summary =
      ((lastTagLine summaryTag c).map
        (fun l => trim (removeAll summaryTag (trim l)))).getD [] :=
  foldl_scan_field ScanState.summary _ _ scanStep_summary (rustLines c) ⟨[], [], [], []⟩

theorem analyzeScan_sentiment (c : Str) :
    (analyzeScan c).sentiment =
      ((lastTagLine sentimentTag c).map
        (fun l => trim (removeAll sentimentTag (trim l)))).getD [] :=
  foldl_scan_field ScanState.sentiment _ _ scanStep_sentiment (rustLines c) ⟨[], [], [], []⟩

theorem analyzeScan_topics (c : Str) :
    (analyzeScan c).topics =
      ((lastTagLine topicsTag c).map
        (fun l => trim (removeAll topicsTag (trim l)))).getD [] :=
  foldl_scan_field ScanState.topics _ _ scanStep_topics (rustLines c) ⟨[], [], [], []⟩

theorem analyzeScan_category (c : Str) :
    (analyzeScan c).category =
      ((lastTagLine categoryTag c).map
        (fun l => trim (removeAll categoryTag (trim l)))).getD [] :=
  foldl_scan_field ScanState.category _ _ scanStep_category (rustLines c) ⟨[], [], [], []⟩

/-- The scanned value of a field, given the last matching line and that the
remainder after the tag holds no further occurrence of the tag. -/
theorem field_value {tag c l : Str} (htag : tag ≠ [])
    (hfind : lastTagLine tag c = some l)
    (hno : occursIn tag ((trim l).drop tag.length) = false) :
    ((lastTagLine tag c).map (fun l => trim (removeAll tag (trim l)))).getD []
      = trim ((trim l).drop tag.length) := by
  have hp : tag.isPrefixOf (trim l) = true := (List.find?_eq_some.mp hfind).1
  rw [hfind]
  simp only [Option.map_some', Option.getD_some]
  obtain ⟨t, ht⟩ := List.isPrefixOf_iff_prefix.mp hp
  have hdrop : (trim l).drop tag.length = t := by
    rw [← ht]; exact List.drop_left _ _
  rw [hdrop] at hno ⊢
  rw [← ht, removeAll_strip htag hno]

theorem find?_none_of_no_occur {tag c : Str} (htag : occursIn tag c = false) :
    lastTagLine tag c = none := by
  apply List.find?_eq_none.mpr
  intro l hl
  rcases hp : tag.isPrefixOf (trim l) with _ | _
  · simp
  · have h := occursIn_of_line_tag (List.mem_reverse.mp hl) hp
    rw [htag] at h
    exact absurd h (by simp)

/-- Claim C1: for a completion whose lines carry the four literal tags,
each field of `analyze_web_content_parse` is exactly the remainder of the
last line starting (after trimming) with the corresponding tag, tag
stripped and trimmed; well-formedness of that line means the remainder
holds no further occurrence of the tag and is not blank (the code removes
every occurrence of the tag and falls back on an empty value). -/
theorem C1_line_tag_assignment (c : Str) :
    (∀ l, lastTagLine summaryTag c = some l →
      occursIn summaryTag ((trim l).drop summaryTag.length) = false →
      trim ((trim l).drop summaryTag.length) ≠ [] →
      (analyze_web_content_parse c).summary = trim ((trim l).drop summaryTag.length)) ∧
    (∀ l, lastTagLine sentimentTag c = some l →
      occursIn sentimentTag ((trim l).drop sentimentTag.length) = false →
      trim ((trim l).drop sentimentTag.length) ≠ [] →
      (analyze_web_content_parse c).sentiment = trim ((trim l).drop sentimentTag.length)) ∧
    (∀ l, lastTagLine topicsTag c = some l →
      occursIn topicsTag ((trim l).drop topicsTag.length) = false →
      trim ((trim l).drop topicsTag.length) ≠ [] →
      (analyze_web_content_parse c).key_topics = trim ((trim l).drop topicsTag.length)) ∧
    (∀ l, lastTagLine categoryTag c = some l →
      occursIn categoryTag ((trim l).drop categoryTag.length) = false →
      trim ((trim l).drop categoryTag.length) ≠ [] →
      (analyze_web_content_parse c).category = trim ((trim l).drop categoryTag.length)) := by
  refine ⟨?_, ?_, ?_, ?_⟩
  · intro l hfind hno hne
    have hs := analyzeScan_summary c
    rw [field_value (by decide) hfind hno] at hs
    simp only [analyze_web_content_parse]
    rw [hs, if_neg hne]
  · intro l hfind hno hne
    have hs := analyzeScan_sentiment c
    rw [field_value (by decide) hfind hno] at hs
    simp only [analyze_web_content_parse]
    rw [hs, if_neg hne]
  · intro l hfind hno hne
    have hs := analyzeScan_topics c
    rw [field_value (by decide) hfind hno] at hs
    simp only [analyze_web_content_parse]
    rw [hs, if_neg hne]
  · intro l hfind hno hne
    have hs := analyzeScan_category c
    rw [field_value (by decide) hfind hno] at hs
    simp only [analyze_web_content_parse]
    rw [hs, if_neg hne]

/-- Witness for C1 at the spec's end-to-end scenario completion. -/
theorem C1_line_tag_assignment_witness :
    lastTagLine summaryTag sampleAnalysis = some (str "SUMMARY: A test.") ∧
    (analyze_web_content_parse sampleAnalysis).summary = str "A test." ∧
    (analyze_web_content_parse sampleAnalysis).sentiment = str "POSITIVE" ∧
    (analyze_web_content_parse sampleAnalysis).key_topics = str "a, b" ∧
    (analyze_web_content_parse sampleAnalysis).category = str "Tech" :=
  ⟨by decide,
   ((C1_line_tag_assignment sampleAnalysis).1 (str "SUMMARY: A test.")
     (by decide) (by decide) (by decide)).trans (by decide),
   ((C1_line_tag_assignment sampleAnalysis).2.1 (str "SENTIMENT: POSITIVE")
     (by decide) (by decide) (by decide)).trans (by decide),
   ((C1_line_tag_assignment sampleAnalysis).2.2.1 (str "TOPICS: a, b")
     (by decide) (by decide) (by decide)).trans (by decide),
   ((C1_line_tag_assignment sampleAnalysis).2.2.2 (str "CATEGORY: Tech")
     (by decide) (by decide) (by decide)).trans (by decide)⟩

/-- Claim C2: a completion containing none of the four tags yields the raw
completion as summary and the three documented defaults, each fallback
applied per field after the scan. -/
theorem C2_no_tags_defaults (c : Str)
    (h1 : occursIn summaryTag c = false) (h2 : occursIn sentimentTag c = false)
    (h3 : occursIn topicsTag c = false) (h4 : occursIn categoryTag c = false) :
    analyze_web_content_parse c =
      ⟨c, str "NEUTRAL", str "General", str "General"⟩ := by
  have hsum : (analyzeScan c).summary = [] := by
    rw [analyzeScan_summary, find?_none_of_no_occur h1]; rfl
  have hsent : (analyzeScan c).sentiment = [] := by
    rw [analyzeScan_sentiment, find?_none_of_no_occur h2]; rfl
  have htop : (analyzeScan c).topics = [] := by
    rw [analyzeScan_topics, find?_none_of_no_occur h3]; rfl
  have hcat : (analyzeScan c).category = [] := by
    rw [analyzeScan_category, find?_none_of_no_occur h4]; rfl
  simp only [analyze_web_content_parse]
  rw [hsum, hsent, htop, hcat]
  simp

/-- Witness for C2 at a tag-free completion. -/
theorem C2_no_tags_defaults_witness :
    analyze_web_content_parse (str "hello world") =
      ⟨str "hello world", str "NEUTRAL", str "General", str "General"⟩ :=
  C2_no_tags_defaults _ (by decide) (by decide) (by decide) (by decide)

/-- Claim C7: `extract_topics` splits into lines, drops blank lines, trims
the rest, and keeps the first `max_topics` entries in order; the result
never exceeds `max_topics` entries and never holds a blank entry. -/
theorem C7_extract_topics_shape (c : Str) (k : Nat) :
    extract_topics_parse c k =
      (((rustLines c).filter (fun l => !(trim l).isEmpty)).map trim).take k ∧
    (extract_topics_parse c k).length ≤ k ∧
    (extract_topics_parse c k).all (fun t => !t.isEmpty) = true := by
  refine ⟨rfl, ?_, ?_⟩
  · rw [extract_topics_parse, List.length_take]
    exact min_le_left _ _
  · rw [List.all_eq_true]
    intro t ht
    have ht' := List.take_subset _ _ ht
    obtain ⟨l, hl, rfl⟩ := List.mem_map.mp ht'
    exact (List.mem_filter.mp hl).2

/-- Claim C9 (amended): sentiment, key topics and category are always
non-empty, but the summary is empty exactly when the completion is empty,
because the summary fallback is the raw completion itself. -/
theorem C9_fields_populated (c : Str) :
    0 < (analyze_web_content_parse c).sentiment.length ∧
    0 < (analyze_web_content_parse c).key_topics.length ∧
    0 < (analyze_web_content_parse c).category.length ∧
    ((analyze_web_content_parse c).summary.length = 0 ↔ c.length = 0) := by
  refine ⟨?_, ?_, ?_, ?_, ?_⟩
  · simp only [analyze_web_content_parse]
    split_ifs with h
    · decide
    · exact List.length_pos.mpr h
  · simp only [analyze_web_content_parse]
    split_ifs with h
    · decide
    · exact List.length_pos.mpr h
  · simp only [analyze_web_content_parse]
    split_ifs with h
    · decide
    · exact List.length_pos.mpr h
  · intro h0
    simp only [analyze_web_content_parse] at h0
    split_ifs at h0 with h
    · exact h0
    · exact absurd (List.length_eq_zero.mp h0) h
  · intro hc
    have hce : c = [] := List.length_eq_zero.mp hc
    subst hce
    decide

/-- Counterexample to C9 as stated: for the empty completion the summary
fallback is the raw (empty) completion, so the summary field is empty. -/
theorem C9_empty_summary :
    analyze_web_content_parse (str "") =
      ⟨[], str "NEUTRAL", str "General", str "General"⟩ ∧
    (analyze_web_content_parse (str "")).summary = [] := by
  constructor <;> decide

/-- Claim C6: a completion whose trim parses as a (finite) float is clamped
into `[0,100]` via `min`/`max`, and an unparseable completion yields `0.0`. -/
theorem C6_check_relevance (c : Str) :
    (∀ q, parseF64 (trim c) = some (F64.finite q) →
      check_relevance_parse c = F64.finite (max 0 (min 100 q)) ∧
      0 ≤ max 0 (min 100 q) ∧ max 0 (min 100 q) ≤ (100 : ℚ)) ∧
    (parseF64 (trim c) = none → check_relevance_parse c = F64.finite 0) := by
  constructor
  · intro q h
    refine ⟨?_, le_max_left _ _, max_le (by norm_num) (min_le_left _ _)⟩
    simp only [check_relevance_parse, h, Option.getD_some, fmin, fmax]
    rw [min_comm, max_comm]
  · intro h
    simp only [check_relevance_parse, h, Option.getD_none, fmin, fmax]
    norm_num

/-- Witness for C6 at the spec's two scenario completions. -/
theorem C6_check_relevance_witness :
    check_relevance_parse (str "42.5") = F64.finite (85 / 2) ∧
    check_relevance_parse (str "not a number") = F64.finite 0 := by
  constructor
  · have hE : parseF64 (trim (str "42.5"))
        = some (F64.finite (((42 : Nat) : ℚ) + ((5 : Nat) : ℚ) / 10 ^ (1 : Nat))) := rfl
    have hq : (((42 : Nat) : ℚ) + ((5 : Nat) : ℚ) / 10 ^ (1 : Nat)) = 85 / 2 := by norm_num
    rw [hq] at hE
    rw [((C6_check_relevance (str "42.5")).1 (85 / 2) hE).1]
    congr 1
    rw [min_eq_right (by norm_num), max_eq_right (by norm_num)]
  · exact (C6_check_relevance (str "not a number")).2 (by decide)

/-- Claim C5: when the completion fails to decode as the sentiment JSON
object, `analyze_sentiment` still succeeds, with the label from a
case-insensitive substring search (positive before negative, else
neutral), confidence fixed at 50 and the raw completion as explanation. -/
theorem C5_sentiment_fallback (c : Str) (h : parseSentimentJson c = none) :
    (analyze_sentiment_parse c).confidence = 50 ∧
    (analyze_sentiment_parse c).explanation = c ∧
    (occursIn (str "positive") (lowerStr c) = true →
      (analyze_sentiment_parse c).label = str "POSITIVE") ∧
    (occursIn (str "positive") (lowerStr c) = false →
      occursIn (str "negative") (lowerStr c) = true →
      (analyze_sentiment_parse c).label = str "NEGATIVE") ∧
    (occursIn (str "positive") (lowerStr c) = false →
      occursIn (str "negative") (lowerStr c) = false →
      (analyze_sentiment_parse c).label = str "NEUTRAL") := by
  simp only [analyze_sentiment_parse, h]
  refine ⟨trivial, trivial, ?_, ?_, ?_⟩
  · intro hp; simp [hp]
  · intro hp hn; simp [hp, hn]
  · intro hp hn; simp [hp, hn]

/-- Witness for C5 at a plain-text completion. -/
theorem C5_sentiment_fallback_witness :
    parseSentimentJson (str "clearly Negative stuff") = none ∧
    (analyze_sentiment_parse (str "clearly Negative stuff")).label = str "NEGATIVE" ∧
    (analyze_sentiment_parse (str "clearly Negative stuff")).confidence = 50 :=
  ⟨by decide,
   (C5_sentiment_fallback _ (by decide)).2.2.2.1 (by decide) (by decide),
   (C5_sentiment_fallback _ (by decide)).1⟩

/-- Claim C4 (amended): a successfully decoded completion yields the label
and explanation verbatim and the confidence rescaled by 100; the rescaled
confidence lies in `[0,100]` when the decoded confidence lies in `[0,1]`
(the code never clamps, so larger decoded values escape the range). -/
theorem C4_sentiment_decoded (c : Str) :
    ∀ p, parseSentimentJson c = some p →
      analyze_sentiment_parse c = ⟨p.label, p.confidence * 100, p.explanation⟩ ∧
      (0 ≤ p.confidence → p.confidence ≤ 1 →
        0 ≤ p.confidence * 100 ∧ p.confidence * 100 ≤ 100) := by
  intro p h
  constructor
  · simp [analyze_sentiment_parse, h]
  · intro h0 h1
    refine ⟨mul_nonneg h0 (by norm_num), ?_⟩
    calc p.confidence * 100 ≤ 1 * 100 := mul_le_mul_of_nonneg_right h1 (by norm_num)
    _ = 100 := by norm_num

/-- Witness for C4 at the spec's round-trip example with confidence 0.8. -/
theorem C4_sentiment_decoded_witness :
    parseSentimentJson sampleConf08 = some ⟨str "POSITIVE", 4 / 5, str "x"⟩ ∧
    analyze_sentiment_parse sampleConf08 = ⟨str "POSITIVE", 80, str "x"⟩ := by
  have hE : parseSentimentJson sampleConf08
      = some ⟨str "POSITIVE", ((0 : Nat) : ℚ) + ((8 : Nat) : ℚ) / 10 ^ (1 : Nat), str "x"⟩ := rfl
  have hq : ((0 : Nat) : ℚ) + ((8 : Nat) : ℚ) / 10 ^ (1 : Nat) = 4 / 5 := by norm_num
  rw [hq] at hE
  refine ⟨hE, ?_⟩
  rw [(C4_sentiment_decoded sampleConf08 ⟨str "POSITIVE", 4 / 5, str "x"⟩ hE).1]
  rw [show (4 / 5 * 100 : ℚ) = 80 by norm_num]

/-- Counterexample to C4 as stated: a decoded confidence of 2.0 is rescaled
to 200, outside `[0,100]`. -/
theorem C4_confidence_not_clamped :
    parseSentimentJson sampleConf2 = some ⟨str "POSITIVE", 2, str "x"⟩ ∧
    (analyze_sentiment_parse sampleConf2).confidence = 200 ∧
    ¬((analyze_sentiment_parse sampleConf2).confidence ≤ 100) := by
  have hE : parseSentimentJson sampleConf2
      = some ⟨str "POSITIVE", ((2 : Nat) : ℚ) + ((0 : Nat) : ℚ) / 10 ^ (1 : Nat), str "x"⟩ := rfl
  have hq : ((2 : Nat) : ℚ) + ((0 : Nat) : ℚ) / 10 ^ (1 : Nat) = 2 := by norm_num
  rw [hq] at hE
  have h : analyze_sentiment_parse sampleConf2
      = ⟨str "POSITIVE", (((2 : Nat) : ℚ) + ((0 : Nat) : ℚ) / 10 ^ (1 : Nat)) * 100, str "x"⟩ :=
    rfl
  rw [hq] at h
  refine ⟨hE, ?_, ?_⟩
  · rw [h]; norm_num
  · rw [h]; norm_num

/-- Claim C8: `send_prompt` returns the first part of the first candidate
of a decoded 2xx envelope; a non-2xx status fails with the response body
attached; a 2xx envelope with no candidate or no part fails with the
"No response from LLM" error; the model is a single evaluation, so the
first failure is final (no retry exists). -/
theorem C8_send_prompt (status : Nat) (body : Str) :
    (∀ g cand part, 200 ≤ status → status < 300 →
      decodeGemini body = some g → g.candidates.head? = some cand →
      cand.content.parts.head? = some part →
      send_prompt_handle status body = .ok part.text) ∧
    (¬(200 ≤ status ∧ status < 300) →
      send_prompt_handle status body = .error (.apiFailed body)) ∧
    (∀ g, 200 ≤ status → status < 300 → decodeGemini body = some g →
      g.candidates = [] →
      send_prompt_handle status body = .error .noResponse) ∧
    (∀ g cand, 200 ≤ status → status < 300 → decodeGemini body = some g →
      g.candidates.head? = some cand → cand.content.parts = [] →
      send_prompt_handle status body = .error .noResponse) := by
  refine ⟨?_, ?_, ?_, ?_⟩
  · intro g cand part h1 h2 hg hc hp
    simp [send_prompt_handle, h1, h2, hg, hc, hp]
  · intro h
    simp [send_prompt_handle, h]
  · intro g h1 h2 hg hc
    simp [send_prompt_handle, h1, h2, hg, hc]
  · intro g cand h1 h2 hg hc hp
    simp [send_prompt_handle, h1, h2, hg, hc, hp]

/-- Witness for C8 on a one-candidate envelope, a 404, and an empty
candidate list. -/
theorem C8_send_prompt_witness :
    send_prompt_handle 200 sampleEnvelope = .ok (str "hi") ∧
    send_prompt_handle 404 (str "oops") = .error (.apiFailed (str "oops")) ∧
    send_prompt_handle 200 emptyEnvelope = .error .noResponse :=
  ⟨(C8_send_prompt 200 sampleEnvelope).1 ⟨[⟨⟨[⟨str "hi"⟩]⟩⟩]⟩ ⟨⟨[⟨str "hi"⟩]⟩⟩ ⟨str "hi"⟩
     (by norm_num) (by norm_num) (by decide) (by decide) (by decide),
   (C8_send_prompt 404 (str "oops")).2.1 (by omega),
   (C8_send_prompt 200 emptyEnvelope).2.2.1 ⟨[]⟩ (by norm_num) (by norm_num)
     (by decide) rfl⟩

/-! ## Byte slicing: successful slices and panics -/

theorem byteLen_cons (c : Char) (s : Str) :
    byteLen (c :: s) = c.utf8Size + byteLen s := by
  simp [byteLen]

theorem slicePre_byteLen {s t : Str} {n : Nat} (h : slicePre s n = some t) :
    byteLen t = n ∧ t <+: s := by
  induction s generalizing n t with
  | nil =>
    cases n with
    | zero =>
      simp only [slicePre, Option.some.injEq] at h
      subst h
      exact ⟨rfl, List.nil_prefix⟩
    | succ m => simp [slicePre] at h
  | cons c rest ih =>
    cases n with
    | zero =>
      simp only [slicePre, Option.some.injEq] at h
      subst h
      exact ⟨rfl, List.nil_prefix⟩
    | succ m =>
      by_cases hc : c.utf8Size ≤ m + 1
      · rw [show slicePre (c :: rest) (m + 1) =
            (slicePre rest (m + 1 - c.utf8Size)).map (c :: ·) from if_pos hc] at h
        obtain ⟨t', ht', rfl⟩ := Option.map_eq_some'.mp h
        obtain ⟨hlen, hpre⟩ := ih ht'
        have hsz : 0 < c.utf8Size := Char.utf8Size_pos c
        constructor
        · rw [byteLen_cons, hlen]; omega
        · exact List.cons_prefix_cons.mpr ⟨rfl, hpre⟩
      · rw [show slicePre (c :: rest) (m + 1) = none from if_neg hc] at h
        cases h

theorem slicePre_eq_none {s : Str} {n : Nat} (hlt : n < byteLen s)
    (hb : ¬ IsUtf8Boundary s n) : slicePre s n = none := by
  induction s generalizing n with
  | nil => simp [byteLen] at hlt
  | cons c rest ih =>
    cases n with
    | zero => exact absurd ⟨0, rfl⟩ hb
    | succ m =>
      by_cases hc : c.utf8Size ≤ m + 1
      · have hcl : byteLen (c :: rest) = c.utf8Size + byteLen rest := byteLen_cons c rest
        have h1 : m + 1 - c.utf8Size < byteLen rest := by omega
        have h2 : ¬ IsUtf8Boundary rest (m + 1 - c.utf8Size) := by
          rintro ⟨k, hk⟩
          refine hb ⟨k + 1, ?_⟩
          rw [List.take_succ_cons, byteLen_cons, hk]
          omega
        rw [show slicePre (c :: rest) (m + 1) =
            (slicePre rest (m + 1 - c.utf8Size)).map (c :: ·) from if_pos hc]
        rw [ih h1 h2]
        rfl
      · exact if_neg hc

/-- Claim C3 (amended): truncation is by UTF-8 bytes, not characters.
Content whose byte length is at most the limit is passed whole; otherwise,
when slicing does not panic, the prompt embeds exactly the prefix of byte
length equal to the limit, and each operation's prompt embeds the
truncation at its documented limit (3000, 4000, 4000, 2000, 3000). -/
theorem C3_truncation (content : Str) :
    (∀ limit t, truncateBytes content limit = some t →
      (byteLen content ≤ limit → t = content) ∧
      (limit < byteLen content → byteLen t = limit ∧ t <+: content)) ∧
    (∀ title url p, analyze_web_content_prompt title content url = some p →
      ∃ t pre post, truncateBytes content 3000 = some t ∧ p = pre ++ t ++ post) ∧
    (∀ k p, summarize_content_prompt content k = some p →
      ∃ t pre post, truncateBytes content 4000 = some t ∧ p = pre ++ t ++ post) ∧
    (∀ k p, extract_topics_prompt content k = some p →
      ∃ t pre post, truncateBytes content 4000 = some t ∧ p = pre ++ t ++ post) ∧
    (∀ title p, classify_content_prompt title content = some p →
      ∃ t pre post, truncateBytes content 2000 = some t ∧ p = pre ++ t ++ post) ∧
    (∀ ks p, check_relevance_prompt content ks = some p →
      ∃ t pre post, truncateBytes content 3000 = some t ∧ p = pre ++ t ++ post) := by
  refine ⟨?_, ?_, ?_, ?_, ?_, ?_⟩
  · intro limit t h
    by_cases hb : byteLen content > limit
    · rw [truncateBytes, if_pos hb] at h
      exact ⟨fun hle => absurd hle (by omega), fun _ => slicePre_byteLen h⟩
    · rw [truncateBytes, if_neg hb] at h
      cases h
      exact ⟨fun _ => rfl, fun hlt => absurd hlt (by omega)⟩
  · intro title url p h
    obtain ⟨t, ht, rfl⟩ := Option.map_eq_some'.mp h
    exact ⟨t, _, _, ht, rfl⟩
  · intro k p h
    obtain ⟨t, ht, rfl⟩ := Option.map_eq_some'.mp h
    exact ⟨t, str "Summarize the following content in exactly " ++ str (toString k) ++
      str " sentences. Focus on the most important information:\n\n", [], ht, by simp⟩
  · intro k p h
    obtain ⟨t, ht, rfl⟩ := Option.map_eq_some'.mp h
    exact ⟨t, str "Extract the top " ++ str (toString k) ++
      str " key topics or themes from this content. Return only the topics, one per line:\n\n",
      [], ht, by simp⟩
  · intro title p h
    obtain ⟨t, ht, rfl⟩ := Option.map_eq_some'.mp h
    exact ⟨t, _, _, ht, rfl⟩
  · intro ks p h
    obtain ⟨t, ht, rfl⟩ := Option.map_eq_some'.mp h
    exact ⟨t, _, _, ht, rfl⟩

theorem slicePre_replicate (c : Char) (k m : Nat) :
    slicePre (List.replicate m c) (k * c.utf8Size) =
      if k ≤ m then some (List.replicate k c) else none := by
  induction k generalizing m with
  | zero => simp [slicePre]
  | succ k ih =>
    have hw := Char.utf8Size_pos c
    have hpos : 0 < (k + 1) * c.utf8Size := Nat.mul_pos (Nat.succ_pos k) hw
    obtain ⟨n, hn⟩ : ∃ n, (k + 1) * c.utf8Size = n + 1 :=
      ⟨_, (Nat.succ_pred_eq_of_pos hpos).symm⟩
    cases m with
    | zero =>
      rw [hn, List.replicate_zero]
      simp [slicePre]
    | succ m =>
      rw [List.replicate_succ, hn]
      have hc : c.utf8Size ≤ n + 1 := by
        rw [← hn]
        calc c.utf8Size = 1 * c.utf8Size := (one_mul _).symm
        _ ≤ (k + 1) * c.utf8Size := Nat.mul_le_mul_right _ (by omega)
      rw [show slicePre (c :: List.replicate m c) (n + 1) =
          (slicePre (List.replicate m c) (n + 1 - c.utf8Size)).map (c :: ·) from if_pos hc]
      have harg : n + 1 - c.utf8Size = k * c.utf8Size := by
        have h1 : (k + 1) * c.utf8Size = k * c.utf8Size + c.utf8Size := by ring
        omega
      rw [harg, ih m]
      by_cases hkm : k ≤ m
      · rw [if_pos hkm, if_pos (by omega)]
        rfl
      · rw [if_neg hkm, if_neg (by omega)]
        rfl

theorem byteLen_replicate (n : Nat) (c : Char) :
    byteLen (List.replicate n c) = n * c.utf8Size := by
  simp [byteLen, List.map_replicate, List.sum_replicate, smul_eq_mul]

theorem twoByteContent_byteLen : byteLen twoByteContent = 2002 := by
  rw [twoByteContent, byteLen_replicate]
  decide

theorem twoByteContent_truncation :
    truncateBytes twoByteContent 2000 = some (List.replicate 1000 'é') := by
  rw [truncateBytes, if_pos (by rw [twoByteContent_byteLen]; omega)]
  rw [twoByteContent, show (2000 : Nat) = 1000 * ('é' : Char).utf8Size from by decide,
    slicePre_replicate]
  rw [if_pos (by omega)]

/-- Witness for C3: a 2002-byte content truncated at the 2000-byte limit of
`classify_content` keeps exactly 2000 bytes, a proper leading part. -/
theorem C3_truncation_witness :
    truncateBytes twoByteContent 2000 = some (List.replicate 1000 'é') ∧
    byteLen (List.replicate 1000 'é') = 2000 ∧
    List.replicate 1000 'é' <+: twoByteContent := by
  have h := twoByteContent_truncation
  have h2 := ((C3_truncation twoByteContent).1 2000 _ h).2
    (by rw [twoByteContent_byteLen]; omega)
  exact ⟨h, h2.1, h2.2⟩

/-- Counterexample to C3 as stated: 1001 two-byte characters are 1001
characters, at most any of the limits, yet `classify_content` does not
include them whole — the slice keeps 2000 bytes, only the first 1000
characters. -/
theorem C3_chars_counterexample :
    twoByteContent.length = 1001 ∧ (1001 : Nat) ≤ 2000 ∧
    byteLen twoByteContent = 2002 ∧
    truncateBytes twoByteContent 2000 = some (List.replicate 1000 'é') ∧
    (List.replicate 1000 'é').length = 1000 ∧
    truncateBytes twoByteContent 2000 ≠ some twoByteContent := by
  refine ⟨by simp [twoByteContent], by omega, twoByteContent_byteLen,
    twoByteContent_truncation, by simp, ?_⟩
  rw [twoByteContent_truncation]
  intro h
  injection h with h2
  have := congrArg List.length h2
  simp [twoByteContent] at this

/-- Claim C10: truncation slices by raw byte offset, so content longer (in
bytes) than an operation's limit whose limit-th byte is not a character
boundary makes the operation panic (modelled as `none`) instead of
producing a prompt. -/
theorem C10_byte_slice_panics (content title url : Str) (keywords : List Str)
    (max_sentences max_topics : Nat) :
    (3000 < byteLen content → ¬IsUtf8Boundary content 3000 →
      analyze_web_content_prompt title content url = none ∧
      check_relevance_prompt content keywords = none) ∧
    (4000 < byteLen content → ¬IsUtf8Boundary content 4000 →
      summarize_content_prompt content max_sentences = none ∧
      extract_topics_prompt content max_topics = none) ∧
    (2000 < byteLen content → ¬IsUtf8Boundary content 2000 →
      classify_content_prompt title content = none) := by
  have key : ∀ L, L < byteLen content → ¬IsUtf8Boundary content L →
      truncateBytes content L = none := by
    intro L h1 h2
    rw [truncateBytes, if_pos (by omega : byteLen content > L)]
    exact slicePre_eq_none h1 h2
  refine ⟨fun h1 h2 => ⟨?_, ?_⟩, fun h1 h2 => ⟨?_, ?_⟩, fun h1 h2 => ?_⟩ <;>
    simp [analyze_web_content_prompt, check_relevance_prompt, summarize_content_prompt,
      extract_topics_prompt, classify_content_prompt, key _ h1 h2]

theorem oddContent_byteLen : byteLen oddContent = 4001 := by
  rw [oddContent, byteLen_cons, byteLen_replicate]
  decide

theorem oddContent_take (k : Nat) :
    byteLen (oddContent.take k) = if k = 0 then 0 else 1 + 4 * min (k - 1) 1000 := by
  cases k with
  | zero => rfl
  | succ j =>
    rw [oddContent, List.take_succ_cons, byteLen_cons, List.take_replicate,
      byteLen_replicate]
    have hsz : fourByteChar.utf8Size = 4 := by decide
    have ha : ('a' : Char).utf8Size = 1 := by decide
    rw [hsz, ha]
    simp only [Nat.succ_ne_zero, if_false]
    omega

theorem oddContent_not_boundary {n : Nat} (hmod : n % 4 ≠ 1) (hn0 : n ≠ 0) :
    ¬ IsUtf8Boundary oddContent n := by
  rintro ⟨k, hk⟩
  rw [oddContent_take] at hk
  split_ifs at hk with h
  · exact hn0 hk.symm
  · omega

/-- Witness for C10: 1 one-byte character then 1000 four-byte characters,
4001 bytes in all; 2000, 3000 and 4000 all fall inside a character, so all
five operations panic. -/
theorem C10_byte_slice_panics_witness :
    analyze_web_content_prompt (str "t") oddContent (str "u") = none ∧
    check_relevance_prompt oddContent [str "k"] = none ∧
    summarize_content_prompt oddContent 3 = none ∧
    extract_topics_prompt oddContent 5 = none ∧
    classify_content_prompt (str "t") oddContent = none := by
  have h := C10_byte_slice_panics oddContent (str "t") (str "u") [str "k"] 3 5
  have hb : byteLen oddContent = 4001 := oddContent_byteLen
  have h3 := h.1 (by omega) (oddContent_not_boundary (by norm_num) (by norm_num))
  have h4 := h.2.1 (by omega) (oddContent_not_boundary (by norm_num) (by norm_num))
  have h2 := h.2.2 (by omega) (oddContent_not_boundary (by norm_num) (by norm_num))
  exact ⟨h3.1, h3.2, h4.1, h4.2, h2⟩

end WebLLM
